import Mathlib

/-!
Shallow embedding of the stochastic wind field simulator
(repository `stochastic_wind_simulation_GPU`, NumPy backend
`numpy_backend/simulator.py` and JAX backend `jax_backend/simulator.py`)
together with proofs settling the specification claims about it.

Conventions of the embedding:
* machine floats are embedded as exact rationals (for the parameter
  bookkeeping, which involves only field arithmetic) or as real numbers
  (for the spectral pipeline, which uses `exp`, `sqrt`, `pi` and complex
  arithmetic);
* the external Cholesky routine (`scipy.linalg.cholesky` /
  `jax.scipy.linalg.cholesky`) is an oracle parameter of type
  `matrix -> Option matrix`, `none` standing for the decomposition
  failure raised on non-positive-definite input;
* the external spectrum model (`psd.get_spectrum_class`, not part of the
  core sources) is an oracle `Sfun : frequency -> height -> PSD value`;
* the NumPy global random stream is an oracle `stream : Nat -> Real`;
  `np.random.uniform(0, 2*pi, (n, N))` consumes `n*N` consecutive values
  of the stream in row-major order.
-/

namespace WindSim

/-- Simulation parameter record, mirroring the `params` dict built by
`NumpyWindSimulator._set_default_parameters` (numpy_backend/simulator.py
lines 38-56; the JAX backend builds the same dict minus `alpha_0`).
`N` and `M` are the integer grid sizes; the other entries are numeric
scalars, embedded as exact rationals. -/
structure Params where
  K : ℚ
  H_bar : ℚ
  z_0 : ℚ
  alpha_0 : ℚ
  C_x : ℚ
  C_y : ℚ
  C_z : ℚ
  w_up : ℚ
  N : ℕ
  M : ℕ
  T : ℚ
  dt : ℚ
  U_d : ℚ
  dw : ℚ
  z_d : ℚ
deriving DecidableEq

/-- Re-derivation of the dependent parameters, mirroring
`params["dw"] = params["w_up"] / params["N"]` and
`params["z_d"] = params["H_bar"] - params["z_0"] / params["K"]`
(numpy_backend/simulator.py lines 53-54 and 64-68, jax_backend lines
38-39 and 49-53). -/
def deriveDependent (p : Params) : Params :=
  { p with dw := p.w_up / (p.N : ℚ), z_d := p.H_bar - p.z_0 / p.K }

/-- Default parameters of `_set_default_parameters`
(numpy_backend/simulator.py lines 38-56). -/
def defaultParams : Params :=
  deriveDependent
    { K := 2/5, H_bar := 10, z_0 := 1/20, alpha_0 := 4/25,
      C_x := 16, C_y := 6, C_z := 10, w_up := 5,
      N := 3000, M := 6000, T := 600, dt := 1/10, U_d := 25,
      dw := 0, z_d := 0 }

/-- One keyword argument of `update_parameters(**kwargs)`.  The named
constructors correspond to the keys present in the `params` dict (the
derived keys `dw` and `z_d` are themselves dict keys, hence assignable);
`unknown` stands for any keyword whose name is not a key of the dict. -/
inductive KwArg where
  | K_ (v : ℚ)
  | H_bar_ (v : ℚ)
  | z_0_ (v : ℚ)
  | alpha_0_ (v : ℚ)
  | C_x_ (v : ℚ)
  | C_y_ (v : ℚ)
  | C_z_ (v : ℚ)
  | w_up_ (v : ℚ)
  | N_ (v : ℕ)
  | M_ (v : ℕ)
  | T_ (v : ℚ)
  | dt_ (v : ℚ)
  | U_d_ (v : ℚ)
  | dw_ (v : ℚ)
  | z_d_ (v : ℚ)
  | unknown (name : String) (v : ℚ)
deriving DecidableEq

/-- Effect of one iteration of the loop
`for key, value in kwargs.items(): if key in self.params: self.params[key] = value`
(numpy_backend/simulator.py lines 60-62, jax_backend lines 45-47):
a recognized key overwrites the corresponding entry, an unrecognized key
is ignored. -/
def applyKwarg (p : Params) : KwArg → Params
  | .K_ v => { p with K := v }
  | .H_bar_ v => { p with H_bar := v }
  | .z_0_ v => { p with z_0 := v }
  | .alpha_0_ v => { p with alpha_0 := v }
  | .C_x_ v => { p with C_x := v }
  | .C_y_ v => { p with C_y := v }
  | .C_z_ v => { p with C_z := v }
  | .w_up_ v => { p with w_up := v }
  | .N_ v => { p with N := v }
  | .M_ v => { p with M := v }
  | .T_ v => { p with T := v }
  | .dt_ v => { p with dt := v }
  | .U_d_ v => { p with U_d := v }
  | .dw_ v => { p with dw := v }
  | .z_d_ v => { p with z_d := v }
  | .unknown _ _ => p

/-- `update_parameters` (numpy_backend/simulator.py lines 58-68,
jax_backend lines 43-53): apply every keyword in order, then re-derive
`dw` and `z_d`. -/
def update_parameters (p : Params) (kwargs : List KwArg) : Params :=
  deriveDependent (kwargs.foldl applyKwarg p)

/-- Keywords that overwrite the grid sizes `N` or `M`. -/
def touchesGrid : KwArg → Bool
  | .N_ _ => true
  | .M_ _ => true
  | _ => false

/-- `calculate_simulation_frequency` (numpy_backend/simulator.py lines
90-93, jax_backend lines 100-104): `np.arange(1, N + 1) * dw - dw / 2`,
embedded over an arbitrary division ring so that it can be used both
with rational and with real `dw`. -/
def calculate_simulation_frequency {R : Type} [DivisionRing R] (N : ℕ) (dw : R) : List R :=
  (List.range N).map (fun (k : ℕ) => ((k : R) + 1) * dw - dw / 2)

/-- `calculate_coherence` (numpy_backend/simulator.py lines 71-83,
jax_backend lines 79-92):
`exp(-2 * w * distance_term / max(2 * pi * (U_zi + U_zj), 1e-8))` with
`distance_term = sqrt(C_x^2 (x_i - x_j)^2 + C_y^2 (y_i - y_j)^2 + C_z^2 (z_i - z_j)^2)`. -/
noncomputable def calculate_coherence
    (x_i x_j y_i y_j z_i z_j w U_zi U_zj C_x C_y C_z : ℝ) : ℝ :=
  Real.exp (-2 * w *
      Real.sqrt (C_x ^ 2 * (x_i - x_j) ^ 2 + C_y ^ 2 * (y_i - y_j) ^ 2
        + C_z ^ 2 * (z_i - z_j) ^ 2)
    / max (2 * Real.pi * (U_zi + U_zj)) 1e-8)

/-- `calculate_cross_spectrum` (numpy_backend/simulator.py lines 85-88,
jax_backend lines 94-98): `sqrt(S_ii * S_jj) * coherence`. -/
noncomputable def calculate_cross_spectrum (S_ii S_jj coherence : ℝ) : ℝ :=
  Real.sqrt (S_ii * S_jj) * coherence

/-- `build_spectrum_matrix` (numpy_backend/simulator.py lines 95-130,
jax_backend lines 120-154), entrywise: for each frequency `freqs l` the
`n x n` matrix with entry `(i, j)` equal to
`calculate_cross_spectrum (S_i) (S_j) (coherence between points i and j)`,
where the per-point PSD value `S_i = Sfun (freqs l) z_i` comes from the
external spectrum model (`self.spectrum.calculate_power_spectrum`,
evaluated at the frequency and the point height).  The broadcast grids
`x_i, x_j, ..., U_i, U_j` of the source are realised by indexing the
position and speed vectors at `i` and `j`. -/
noncomputable def build_spectrum_matrix {n Nf : ℕ} (Sfun : ℝ → ℝ → ℝ)
    (pos : Fin n → ℝ × ℝ × ℝ) (U : Fin n → ℝ) (C_x C_y C_z : ℝ)
    (freqs : Fin Nf → ℝ) : Fin Nf → Fin n → Fin n → ℝ :=
  fun l i j =>
    calculate_cross_spectrum (Sfun (freqs l) (pos i).2.2) (Sfun (freqs l) (pos j).2.2)
      (calculate_coherence (pos i).1 (pos j).1 (pos i).2.1 (pos j).2.1
        (pos i).2.2 (pos j).2.2 (freqs l) (U i) (U j) C_x C_y C_z)

/-- Inverse discrete Fourier transform in the `np.fft.ifft` /
`jnp.fft.ifft` convention: `ifft(x)[p] = (1/M) * sum_l x[l] *
exp(2 pi i p l / M)`. -/
noncomputable def ifft {M : ℕ} (x : Fin M → ℂ) (p : Fin M) : ℂ :=
  (M : ℂ)⁻¹ * ∑ l : Fin M, x l
    * Complex.exp (2 * (Real.pi : ℂ) * Complex.I * ((p : ℕ) : ℂ) * ((l : ℕ) : ℂ) / (M : ℂ))

/-- B-coefficient row of the looped NumPy backend
(numpy_backend/simulator.py lines 218-241): for output point `j`,
`B[j, l] = sum_m where(m <= j, H[l, j, m] * exp(i * phi[m, l]), 0)` for
`l < N`, and `B[j, l] = 0` for the zero-padded positions `N <= l < M`.
The phase array `phi` has shape `(n, N)` and is shared by all output
points. -/
noncomputable def B_np {n N M : ℕ} (H : Fin N → Fin n → Fin n → ℂ)
    (phi : Fin n → Fin N → ℝ) (j : Fin n) : Fin M → ℂ :=
  fun lp =>
    if h : (lp : ℕ) < N then
      ∑ m : Fin n, if (m : ℕ) ≤ (j : ℕ) then
        H ⟨(lp : ℕ), h⟩ j m * Complex.exp (Complex.I * ((phi m ⟨(lp : ℕ), h⟩ : ℝ) : ℂ))
      else 0
    else 0

/-- `G = np.fft.ifft(B) * M` (numpy_backend/simulator.py line 244, jax
line 227). -/
noncomputable def G_np {n N M : ℕ} (H : Fin N → Fin n → Fin n → ℂ)
    (phi : Fin n → Fin N → ℝ) (j : Fin n) (p : Fin M) : ℂ :=
  ifft (B_np H phi j) p * (M : ℂ)

/-- Wind sample of the looped NumPy backend
(numpy_backend/simulator.py lines 246-252):
`wind_samples[j, p] = sqrt(2 * dw) * Re(G[j, p] * exp(i * p * pi / M))`. -/
noncomputable def wind_samples_np {n N M : ℕ} (dw : ℝ) (H : Fin N → Fin n → Fin n → ℂ)
    (phi : Fin n → Fin N → ℝ) (j : Fin n) (p : Fin M) : ℝ :=
  Real.sqrt (2 * dw)
    * (G_np H phi j p
        * Complex.exp (Complex.I * (((p : ℕ) : ℂ) * (Real.pi : ℂ) / (M : ℂ)))).re

/-- Synthesis formula as written in the specification (section 4.4):
`B_j[l] = sum over m <= j of H[l, j, m] * exp(i * phase[m, l])`, with a
single phase array `phase[m, l]` of shape `(n, N)` shared by every
output point `j`, zero-padded to length `M`. -/
noncomputable def B_specFormula {n N M : ℕ} (H : Fin N → Fin n → Fin n → ℂ)
    (phase : Fin n → Fin N → ℝ) (j : Fin n) : Fin M → ℂ :=
  fun lp =>
    if h : (lp : ℕ) < N then
      ∑ m ∈ Finset.univ.filter (fun m : Fin n => (m : ℕ) ≤ (j : ℕ)),
        H ⟨(lp : ℕ), h⟩ j m * Complex.exp (Complex.I * ((phase m ⟨(lp : ℕ), h⟩ : ℝ) : ℂ))
    else 0

/-- Wind sample as written in the specification (section 4.4):
`samples[j, p] = sqrt(2 dw) * Re( (ifft(B_j) * M)[p] * exp(i p pi / M) )`. -/
noncomputable def wind_samples_specFormula {n N M : ℕ} (dw : ℝ)
    (H : Fin N → Fin n → Fin n → ℂ) (phase : Fin n → Fin N → ℝ)
    (j : Fin n) (p : Fin M) : ℝ :=
  Real.sqrt (2 * dw)
    * (ifft (B_specFormula H phase j) p * (M : ℂ)
        * Complex.exp (Complex.I * (((p : ℕ) : ℂ) * (Real.pi : ℂ) / (M : ℂ)))).re

/-- B-coefficient row of the array-parallel JAX backend
(jax_backend/simulator.py lines 207-221, `compute_B_for_point`): the
phase array has shape `(n, n, N)`; for output point `j` the code uses
the slice `phi[j, :, :]`, multiplicatively masked by `m <= j` (the mask
multiplies both the `H` factor, the phase and the exponential factor),
then zero-pads to length `M`. -/
noncomputable def B_jax {n N M : ℕ} (H : Fin N → Fin n → Fin n → ℂ)
    (phi : Fin n → Fin n → Fin N → ℝ) (j : Fin n) : Fin M → ℂ :=
  fun lp =>
    if h : (lp : ℕ) < N then
      ∑ m : Fin n,
        (H ⟨(lp : ℕ), h⟩ j m * (if (m : ℕ) ≤ (j : ℕ) then 1 else 0))
          * (Complex.exp (Complex.I
                * ((phi j m ⟨(lp : ℕ), h⟩
                    * (if (m : ℕ) ≤ (j : ℕ) then (1 : ℝ) else 0) : ℝ) : ℂ))
              * (if (m : ℕ) ≤ (j : ℕ) then 1 else 0))
    else 0

/-- Diagonal regularization `S_matrices[i] + np.eye(n) * 1e-12` applied
to one frequency slice (numpy_backend/simulator.py lines 210-211,
jax_backend line 199). -/
noncomputable def regularize {k : ℕ} (S : Fin k → Fin k → ℝ) : Fin k → Fin k → ℝ :=
  fun i j => S i j + (if i = j then 1e-12 else 0)

/-- Per-frequency Cholesky factorization loop (numpy_backend lines
207-212): each slice is regularized and handed, independently of the
other slices, to the external Cholesky routine `chol`
(`scipy.linalg.cholesky(S_reg, lower=True)`), whose failure on
non-positive-definite input is embedded as `none`.  The source loop has
no handler, so a failure on any slice aborts the whole factorization. -/
noncomputable def factorize_slices {Nf k : ℕ}
    (chol : (Fin k → Fin k → ℝ) → Option (Fin k → Fin k → ℝ))
    (S : Fin Nf → Fin k → Fin k → ℝ) : Option (Fin Nf → Fin k → Fin k → ℝ) :=
  if h : ∀ i, (chol (regularize (S i))).isSome then
    some (fun i => (chol (regularize (S i))).get (h i))
  else none

/-- Real-valued entry of the frequency grid,
`(np.arange(1, N + 1) * dw - dw / 2)[l]` (numpy_backend line 93). -/
noncomputable def freqAt (dw : ℝ) (l : ℕ) : ℝ := ((l : ℝ) + 1) * dw - dw / 2

/-- Phase draw `np.random.uniform(0, 2 * np.pi, (n, N))` (numpy_backend
line 215), modelled against the oracle random `stream`: a draw of shape
`(n, N)` consumes `n * N` consecutive stream values in row-major order
starting at `offset`. -/
noncomputable def drawPhi (stream : ℕ → ℝ) (offset n N : ℕ) : Fin n → Fin N → ℝ :=
  fun m l => stream (offset + (m : ℕ) * N + (l : ℕ))

/-- Direct (unbatched) pipeline `_simulate_fluctuating_wind`
(numpy_backend lines 192-254), parametric in the external Cholesky
oracle `chol`, the external spectrum model `Sfun` and the random
`stream` consumed from position `offset`: frequency grid, CPSD build
over the given `n` points, per-slice regularized factorization, phase
draw of shape `(n, N)`, synthesis.  Returns `none` when the
factorization of some slice fails, in which case the source call
raises. -/
noncomputable def simulate_direct {n : ℕ}
    (chol : (k : ℕ) → (Fin k → Fin k → ℝ) → Option (Fin k → Fin k → ℝ))
    (Sfun : ℝ → ℝ → ℝ) (stream : ℕ → ℝ) (offset : ℕ)
    (pos : Fin n → ℝ × ℝ × ℝ) (U : Fin n → ℝ) (C_x C_y C_z : ℝ)
    (N M : ℕ) (dw : ℝ) : Option (Fin n → Fin M → ℝ) :=
  match factorize_slices (chol n)
      (build_spectrum_matrix Sfun pos U C_x C_y C_z
        (fun l : Fin N => freqAt dw (l : ℕ))) with
  | none => none
  | some H => some (fun j p =>
      wind_samples_np dw (fun l j2 m => ((H l j2 m : ℝ) : ℂ))
        (drawPhi stream offset n N) j p)

/-- Modelled from the spec: the batch-count helper
`_get_batch_info(total, batch_size)` lives in `base_simulator.py`, which
is not among the provided sources; the spec prescribes contiguous
batches covering all rows, giving `ceil(n / b)` point batches. -/
def batchCount (n b : ℕ) : ℕ := (n + b - 1) / b

/-- Modelled from the spec: the batch-range helper
`_get_batch_range(k, b, n)` lives in `base_simulator.py`, which is not
among the provided sources; the spec prescribes the contiguous index
range `[k*b, min((k+1)*b, n))` for batch `k`, whose length this is. -/
def batchSize (n b k : ℕ) : ℕ := min (k * b + b) n - k * b

/-- One point batch of the batched path: `_simulate_point_batch`
(numpy_backend lines 293-322) in the `freq_batch_size >= N` case
delegates to `_simulate_fluctuating_wind` applied to
`batch_positions = positions[start:end]` and
`batch_wind_speeds = wind_speeds[start:end]` ONLY (lines 277-287): the
CPSD/coherence of the batch is built from the batch's own points.  The
random stream has been advanced by the `k*b` rows of the previous
batches, each of which consumed `N` stream values. -/
noncomputable def batch_direct {n : ℕ}
    (chol : (k : ℕ) → (Fin k → Fin k → ℝ) → Option (Fin k → Fin k → ℝ))
    (Sfun : ℝ → ℝ → ℝ) (stream : ℕ → ℝ)
    (pos : Fin n → ℝ × ℝ × ℝ) (U : Fin n → ℝ) (C_x C_y C_z : ℝ)
    (N M : ℕ) (dw : ℝ) (b k : ℕ) :
    Option (Fin (batchSize n b k) → Fin M → ℝ) :=
  simulate_direct chol Sfun stream (k * b * N)
    (fun i => pos ⟨k * b + (i : ℕ),
      by have h2 : (i : ℕ) < min (k * b + b) n - k * b := i.isLt; omega⟩)
    (fun i => U ⟨k * b + (i : ℕ),
      by have h2 : (i : ℕ) < min (k * b + b) n - k * b := i.isLt; omega⟩)
    C_x C_y C_z N M dw

/-- Batched driver `_simulate_wind_with_batching` (numpy_backend lines
256-291): the point batches run sequentially and batch `k`'s sample rows
are written into the disjoint output row range `[k*b, min((k+1)*b, n))`;
output row `r` is row `r % b` of batch `r / b`.  A factorization failure
in any batch aborts the whole call (the source loop has no handler). -/
noncomputable def simulate_batched {n : ℕ}
    (chol : (k : ℕ) → (Fin k → Fin k → ℝ) → Option (Fin k → Fin k → ℝ))
    (Sfun : ℝ → ℝ → ℝ) (stream : ℕ → ℝ)
    (pos : Fin n → ℝ × ℝ × ℝ) (U : Fin n → ℝ) (C_x C_y C_z : ℝ)
    (N M : ℕ) (dw : ℝ) (b : ℕ) : Option (Fin n → Fin M → ℝ) :=
  if hb : 0 < b then
    if h : ∀ k : Fin (batchCount n b),
        (batch_direct chol Sfun stream pos U C_x C_y C_z N M dw b (k : ℕ)).isSome then
      some (fun r p =>
        ((batch_direct chol Sfun stream pos U C_x C_y C_z N M dw b ((r : ℕ) / b)).get
            (h ⟨(r : ℕ) / b, by
              have hr := r.isLt
              have h1 : (r : ℕ) / b * b ≤ (r : ℕ) := Nat.div_mul_le_self _ b
              have h2 : (r : ℕ) / b * b + b ≤ (r : ℕ) + b := Nat.add_le_add_right h1 b
              have h3 : (r : ℕ) + b ≤ n + b - 1 := by omega
              rw [batchCount, Nat.lt_iff_add_one_le, Nat.le_div_iff_mul_le hb, add_mul,
                one_mul]
              exact le_trans h2 h3⟩))
          ⟨(r : ℕ) % b, by
            have hr := r.isLt
            have h1 : b * ((r : ℕ) / b) + (r : ℕ) % b = (r : ℕ) := Nat.div_add_mod _ b
            have h2 : (r : ℕ) % b < b := Nat.mod_lt _ hb
            rw [Nat.mul_comm] at h1
            rw [batchSize]
            have key : ∀ s m : ℕ, s + m = (r : ℕ) → m < b → m < min (s + b) n - s := by
              intro s m hsm hmb
              omega
            exact key ((r : ℕ) / b * b) ((r : ℕ) % b) h1 h2⟩ p)
    else none
  else none

/-- Along-wind Kaimal spectrum `calculate_power_spectrum_u`
(jax_backend lines 67-71): `(u_star^2 / n) * 200 f / (1 + 50 f)^(5/3)`. -/
noncomputable def calculate_power_spectrum_u (n u_star f : ℝ) : ℝ :=
  (u_star ^ 2 / n) * (200 * f / (1 + 50 * f) ^ ((5 : ℝ) / 3))

/-- Vertical Kaimal spectrum `calculate_power_spectrum_w`
(jax_backend lines 73-77): `(u_star^2 / n) * 6 f / (1 + 4 f)^2`. -/
noncomputable def calculate_power_spectrum_w (n u_star f : ℝ) : ℝ :=
  (u_star ^ 2 / n) * (6 * f / (1 + 4 * f) ^ 2)

/-- Component dispatch of the JAX backend
(jax_backend lines 185-189):
`spectrum_func = self.calculate_power_spectrum_u if direction == "u"
else self.calculate_power_spectrum_w`.  There is no other branch and no
validation: no exception is raised for any tag. -/
noncomputable def select_spectrum_func (direction : String) : ℝ → ℝ → ℝ → ℝ :=
  if direction = "u" then calculate_power_spectrum_u else calculate_power_spectrum_w

/-- Output assembly of `simulate_wind` as the caller sees it: the
samples matrix as a list of `n` rows of `M` reals each (the result array
is `np.zeros((n, M))` filled row by row, numpy_backend lines 247-252 and
271-289) and the frequency list of length `N` (line 200).  `core` is the
row-indexed sample matrix of either execution path. -/
noncomputable def output_as_lists {n M : ℕ} (N : ℕ) (dw : ℝ)
    (core : Option (Fin n → Fin M → ℝ)) : Option (List (List ℝ) × List ℝ) :=
  core.map (fun f =>
    ((List.finRange n).map (fun j => (List.finRange M).map (fun p => f j p)),
      calculate_simulation_frequency N dw))

/-- Oracle standing for the external Cholesky routine in the concrete
batching scenario below: it returns the all-ones lower-triangular matrix
of the requested size for every input. -/
noncomputable def cholOnes : (k : ℕ) → (Fin k → Fin k → ℝ) → Option (Fin k → Fin k → ℝ) :=
  fun _ _ => some (fun i j => if (j : ℕ) ≤ (i : ℕ) then 1 else 0)

lemma applyKwarg_M (p : Params) (kw : KwArg) (h : touchesGrid kw = false) :
    (applyKwarg p kw).M = p.M ∧ (applyKwarg p kw).N = p.N := by
  cases kw <;> simp_all [applyKwarg, touchesGrid]

lemma update_parameters_M_N (p : Params) (kwargs : List KwArg)
    (h : ∀ kw ∈ kwargs, touchesGrid kw = false) :
    (update_parameters p kwargs).M = p.M ∧ (update_parameters p kwargs).N = p.N := by
  induction kwargs generalizing p with
  | nil => simp [update_parameters, deriveDependent]
  | cons kw rest ih =>
      have hstep : update_parameters p (kw :: rest) = update_parameters (applyKwarg p kw) rest := rfl
      have hk := applyKwarg_M p kw (h kw (by simp))
      have := ih (applyKwarg p kw) (fun k hk2 => h k (by simp [hk2]))
      rw [hstep]
      omega

lemma calculate_coherence_self (x y z w U U' C_x C_y C_z : ℝ) :
    calculate_coherence x x y y z z w U U' C_x C_y C_z = 1 := by
  rw [calculate_coherence]
  simp [Real.sqrt_zero]

lemma calculate_coherence_comm (x_i x_j y_i y_j z_i z_j w U_zi U_zj C_x C_y C_z : ℝ) :
    calculate_coherence x_i x_j y_i y_j z_i z_j w U_zi U_zj C_x C_y C_z
      = calculate_coherence x_j x_i y_j y_i z_j z_i w U_zj U_zi C_x C_y C_z := by
  rw [calculate_coherence, calculate_coherence]
  have h1 : C_x ^ 2 * (x_i - x_j) ^ 2 + C_y ^ 2 * (y_i - y_j) ^ 2
      + C_z ^ 2 * (z_i - z_j) ^ 2
      = C_x ^ 2 * (x_j - x_i) ^ 2 + C_y ^ 2 * (y_j - y_i) ^ 2
      + C_z ^ 2 * (z_j - z_i) ^ 2 := by ring
  rw [h1, add_comm U_zi U_zj]

lemma B_specFormula_eq_ite {n N M : ℕ} (H : Fin N → Fin n → Fin n → ℂ)
    (phase : Fin n → Fin N → ℝ) (j : Fin n) (lp : Fin M) :
    B_specFormula H phase j lp
      = if h : (lp : ℕ) < N then
          ∑ m : Fin n, if (m : ℕ) ≤ (j : ℕ) then
            H ⟨(lp : ℕ), h⟩ j m
              * Complex.exp (Complex.I * ((phase m ⟨(lp : ℕ), h⟩ : ℝ) : ℂ))
          else 0
        else 0 := by
  rw [B_specFormula]
  split
  · rw [Finset.sum_filter]
  · rfl

lemma output_as_lists_shape {n M : ℕ} (N : ℕ) (dw : ℝ)
    (core : Option (Fin n → Fin M → ℝ)) (out : List (List ℝ) × List ℝ)
    (hout : output_as_lists N dw core = some out) :
    out.1.length = n ∧ (∀ row ∈ out.1, row.length = M) ∧ out.2.length = N := by
  rw [output_as_lists] at hout
  obtain ⟨f, _, rfl⟩ := Option.map_eq_some'.mp hout
  refine ⟨?_, ?_, ?_⟩
  · rw [List.length_map, List.length_finRange]
  · intro row hrow
    rw [List.mem_map] at hrow
    obtain ⟨j, _, rfl⟩ := hrow
    rw [List.length_map, List.length_finRange]
  · rw [calculate_simulation_frequency, List.length_map, List.length_range]

lemma factorize_cholOnes {Nf k : ℕ} (S : Fin Nf → Fin k → Fin k → ℝ) :
    factorize_slices (cholOnes k) S
      = some (fun (_ : Fin Nf) (i j : Fin k) =>
          if (j : ℕ) ≤ (i : ℕ) then (1 : ℝ) else 0) := by
  have hc : ∀ i : Fin Nf, ((cholOnes k) (regularize (S i))).isSome := fun i => rfl
  rw [factorize_slices, dif_pos hc]
  rfl

lemma simulate_direct_cholOnes {n : ℕ} (Sfun : ℝ → ℝ → ℝ) (stream : ℕ → ℝ)
    (offset : ℕ) (pos : Fin n → ℝ × ℝ × ℝ) (U : Fin n → ℝ) (C_x C_y C_z : ℝ)
    (N M : ℕ) (dw : ℝ) :
    simulate_direct cholOnes Sfun stream offset pos U C_x C_y C_z N M dw
      = some (fun j p =>
          wind_samples_np dw
            (fun _ j2 m => (((if (m : ℕ) ≤ (j2 : ℕ) then (1 : ℝ) else 0) : ℝ) : ℂ))
            (drawPhi stream offset n N) j p) := by
  rw [simulate_direct, factorize_cholOnes]

lemma wind_samples_np_ones_two :
    wind_samples_np (n := 2) (N := 1) (M := 2) 5
      (fun (_ : Fin 1) (j2 m : Fin 2) =>
        (((if (m : ℕ) ≤ (j2 : ℕ) then (1 : ℝ) else 0) : ℝ) : ℂ))
      (fun _ _ => 0) 1 0 = Real.sqrt 10 * 2 := by
  rw [wind_samples_np, G_np, ifft]
  norm_num [B_np, Fin.sum_univ_two, Complex.exp_zero]

lemma wind_samples_np_ones_one :
    wind_samples_np (n := 1) (N := 1) (M := 2) 5
      (fun (_ : Fin 1) (j2 m : Fin 1) =>
        (((if (m : ℕ) ≤ (j2 : ℕ) then (1 : ℝ) else 0) : ℝ) : ℂ))
      (fun _ _ => 0) 0 0 = Real.sqrt 10 * 1 := by
  rw [wind_samples_np, G_np, ifft, Fin.sum_univ_two]
  norm_num [B_np, Fin.sum_univ_one, Complex.exp_zero]

/-- C7.  After any `update_parameters` call, with arbitrary keyword
overrides — including ones that name the derived fields `dw`, `z_d`
directly and unrecognized names, which are ignored — the derived fields
satisfy `dw = w_up / N` and `z_d = H_bar - z_0 / K` for the current
values of the other parameters: the re-derivation runs after the
override loop, so no update leaves them stale. -/
theorem update_parameters_rederives (p : Params) (kwargs : List KwArg) :
    (update_parameters p kwargs).dw
        = (update_parameters p kwargs).w_up / ((update_parameters p kwargs).N : ℚ) ∧
    (update_parameters p kwargs).z_d
        = (update_parameters p kwargs).H_bar
            - (update_parameters p kwargs).z_0 / (update_parameters p kwargs).K := by
  simp [update_parameters, deriveDependent]

/-- C6 counterexample.  The call `update_parameters(N=100)` leaves
`M = 6000` while `N` becomes `100`, so the invariant `M = 2N` is *not*
preserved by updates that change `N` alone: `update_parameters` never
re-derives `M` from `N`. -/
theorem update_N_breaks_M_eq_two_N :
    ¬ ((update_parameters defaultParams [KwArg.N_ 100]).M
        = 2 * (update_parameters defaultParams [KwArg.N_ 100]).N) := by
  decide

/-- C6 (amended).  The invariant `M = 2N` holds after construction with
the default parameters, and it is preserved by every `update_parameters`
call whose keyword overrides do not name `N` or `M`; an update naming
`N` or `M` alone can break it, since `M` is never re-derived from `N`. -/
theorem M_eq_two_N_preserved (p : Params) (kwargs : List KwArg)
    (hp : p.M = 2 * p.N)
    (hkw : ∀ kw ∈ kwargs, touchesGrid kw = false) :
    defaultParams.M = 2 * defaultParams.N ∧
    (update_parameters p kwargs).M = 2 * (update_parameters p kwargs).N := by
  refine ⟨by decide, ?_⟩
  have h := update_parameters_M_N p kwargs hkw
  omega

/-- Witness for C6 (amended) at the default parameters and the update
`w_up := 3`. -/
theorem M_eq_two_N_preserved_witness :
    defaultParams.M = 2 * defaultParams.N ∧
    (update_parameters defaultParams [KwArg.w_up_ 3]).M
      = 2 * (update_parameters defaultParams [KwArg.w_up_ 3]).N :=
  M_eq_two_N_preserved defaultParams [KwArg.w_up_ 3] (by decide) (by decide)

/-- C5.  For `N ≥ 1` and `dw > 0`, the frequency grid `arange(1, N+1)*dw
- dw/2` has length `N`, entry `k` equal to `(k + 1/2) * dw`, first entry
`dw/2`, last entry `(N - 1/2) * dw`, all entries positive, and is
strictly increasing. -/
theorem calculate_simulation_frequency_spec (N : ℕ) (dw : ℚ)
    (hN : 1 ≤ N) (hdw : 0 < dw) :
    (calculate_simulation_frequency N dw).length = N ∧
    (∀ k, k < N →
      (calculate_simulation_frequency N dw)[k]? = some (((k : ℚ) + 1/2) * dw)) ∧
    (calculate_simulation_frequency N dw)[0]? = some (dw / 2) ∧
    (calculate_simulation_frequency N dw)[N - 1]? = some (((N : ℚ) - 1/2) * dw) ∧
    (∀ q ∈ calculate_simulation_frequency N dw, 0 < q) ∧
    List.Pairwise (· < ·) (calculate_simulation_frequency N dw) := by
  have hget : ∀ k, k < N →
      (calculate_simulation_frequency N dw)[k]? = some (((k : ℚ) + 1/2) * dw) := by
    intro k hk
    rw [calculate_simulation_frequency, List.getElem?_map, List.getElem?_range hk,
      Option.map_some']
    congr 1
    ring
  refine ⟨?_, hget, ?_, ?_, ?_, ?_⟩
  · rw [calculate_simulation_frequency, List.length_map, List.length_range]
  · rw [hget 0 (by omega)]
    congr 1
    push_cast
    ring
  · rw [hget (N - 1) (by omega)]
    congr 1
    have hcast : ((N - 1 : ℕ) : ℚ) = (N : ℚ) - 1 := by
      rw [Nat.cast_sub hN]; norm_num
    rw [hcast]; ring
  · intro q hq
    rw [calculate_simulation_frequency, List.mem_map] at hq
    obtain ⟨k, _, rfl⟩ := hq
    have hk : (0 : ℚ) ≤ (k : ℚ) := Nat.cast_nonneg k
    nlinarith
  · rw [calculate_simulation_frequency, List.pairwise_map]
    refine List.Pairwise.imp ?_ (List.pairwise_lt_range N)
    intro a b hab
    have hq : (a : ℚ) < (b : ℚ) := by exact_mod_cast hab
    nlinarith

/-- Witness for C5 at `N = 3`, `dw = 1/2`. -/
theorem calculate_simulation_frequency_spec_witness :
    (1 ≤ 3 ∧ (0 : ℚ) < 1/2) ∧
    (calculate_simulation_frequency 3 ((1 : ℚ)/2)).length = 3 :=
  ⟨⟨by decide, one_half_pos⟩,
    (calculate_simulation_frequency_spec 3 (1/2) (by decide) one_half_pos).1⟩

/-- C4.  `calculate_coherence` computes exactly
`exp(-2 w D / max(2 pi (U_i + U_j), 1e-8))` with
`D = sqrt(C_x^2 dx^2 + C_y^2 dy^2 + C_z^2 dz^2)`; it equals `1` for
coincident points (for any frequency and any speeds, including speeds
summing to nearly zero, thanks to the `1e-8` floor which keeps the
denominator positive), is strictly positive, and is at most `1`
whenever `w ≥ 0`. -/
theorem calculate_coherence_spec
    (x_i x_j y_i y_j z_i z_j w U_zi U_zj C_x C_y C_z : ℝ) (hw : 0 ≤ w) :
    calculate_coherence x_i x_j y_i y_j z_i z_j w U_zi U_zj C_x C_y C_z
      = Real.exp (-2 * w *
          Real.sqrt (C_x ^ 2 * (x_i - x_j) ^ 2 + C_y ^ 2 * (y_i - y_j) ^ 2
            + C_z ^ 2 * (z_i - z_j) ^ 2)
          / max (2 * Real.pi * (U_zi + U_zj)) 1e-8) ∧
    calculate_coherence x_i x_i y_i y_i z_i z_i w U_zi U_zj C_x C_y C_z = 1 ∧
    0 < calculate_coherence x_i x_j y_i y_j z_i z_j w U_zi U_zj C_x C_y C_z ∧
    calculate_coherence x_i x_j y_i y_j z_i z_j w U_zi U_zj C_x C_y C_z ≤ 1 := by
  refine ⟨rfl, calculate_coherence_self _ _ _ _ _ _ _ _ _, Real.exp_pos _, ?_⟩
  rw [calculate_coherence]
  have harg : -2 * w *
      Real.sqrt (C_x ^ 2 * (x_i - x_j) ^ 2 + C_y ^ 2 * (y_i - y_j) ^ 2
        + C_z ^ 2 * (z_i - z_j) ^ 2)
      / max (2 * Real.pi * (U_zi + U_zj)) 1e-8 ≤ 0 := by
    apply div_nonpos_of_nonpos_of_nonneg
    · have hs := Real.sqrt_nonneg (C_x ^ 2 * (x_i - x_j) ^ 2
        + C_y ^ 2 * (y_i - y_j) ^ 2 + C_z ^ 2 * (z_i - z_j) ^ 2)
      nlinarith
    · have : (0 : ℝ) < 1e-8 := by norm_num
      exact le_of_lt (lt_of_lt_of_le this (le_max_right _ _))
  calc Real.exp _ ≤ Real.exp 0 := Real.exp_le_exp.mpr harg
    _ = 1 := Real.exp_zero

/-- Witness for C4 at concrete inputs (two points one metre apart in `x`,
unit decay coefficients, `w = 1`, speeds `1` and `0`). -/
theorem calculate_coherence_spec_witness :
    (0 : ℝ) ≤ 1 ∧
    calculate_coherence 0 0 0 0 0 0 1 1 0 1 1 1 = 1 ∧
    0 < calculate_coherence 0 1 0 0 0 0 1 1 0 1 1 1 ∧
    calculate_coherence 0 1 0 0 0 0 1 1 0 1 1 1 ≤ 1 :=
  ⟨zero_le_one,
    (calculate_coherence_spec 0 1 0 0 0 0 1 1 0 1 1 1 zero_le_one).2.1,
    (calculate_coherence_spec 0 1 0 0 0 0 1 1 0 1 1 1 zero_le_one).2.2.1,
    (calculate_coherence_spec 0 1 0 0 0 0 1 1 0 1 1 1 zero_le_one).2.2.2⟩

/-- C3.  If the per-point target PSD values `S_i = Sfun (freqs l) z_i`
are non-negative, then each per-frequency CPSD matrix built by
`build_spectrum_matrix` is symmetric, its diagonal equals the one-point
PSD, and its off-diagonal entries equal `sqrt(S_i * S_j) * Coh_ij`. -/
theorem build_spectrum_matrix_spec {n Nf : ℕ} (Sfun : ℝ → ℝ → ℝ)
    (pos : Fin n → ℝ × ℝ × ℝ) (U : Fin n → ℝ) (C_x C_y C_z : ℝ)
    (freqs : Fin Nf → ℝ)
    (hS : ∀ (l : Fin Nf) (i : Fin n), 0 ≤ Sfun (freqs l) (pos i).2.2) :
    (∀ (l : Fin Nf) (i j : Fin n),
      build_spectrum_matrix Sfun pos U C_x C_y C_z freqs l i j
        = build_spectrum_matrix Sfun pos U C_x C_y C_z freqs l j i) ∧
    (∀ (l : Fin Nf) (i : Fin n),
      build_spectrum_matrix Sfun pos U C_x C_y C_z freqs l i i
        = Sfun (freqs l) (pos i).2.2) ∧
    (∀ (l : Fin Nf) (i j : Fin n),
      build_spectrum_matrix Sfun pos U C_x C_y C_z freqs l i j
        = Real.sqrt (Sfun (freqs l) (pos i).2.2 * Sfun (freqs l) (pos j).2.2)
          * calculate_coherence (pos i).1 (pos j).1 (pos i).2.1 (pos j).2.1
              (pos i).2.2 (pos j).2.2 (freqs l) (U i) (U j) C_x C_y C_z) := by
  refine ⟨?_, ?_, fun l i j => rfl⟩
  · intro l i j
    rw [build_spectrum_matrix, build_spectrum_matrix, calculate_cross_spectrum,
      calculate_cross_spectrum, mul_comm (Sfun (freqs l) (pos i).2.2),
      calculate_coherence_comm]
  · intro l i
    rw [build_spectrum_matrix, calculate_cross_spectrum, calculate_coherence_self,
      mul_one, Real.sqrt_mul_self (hS l i)]

/-- Witness for C3: a two-point set with constant unit PSD. -/
theorem build_spectrum_matrix_spec_witness :
    (∀ (l : Fin 1) (i : Fin 2),
      (0 : ℝ) ≤ (fun (_ : ℝ) (_ : ℝ) => (1 : ℝ)) ((fun (_ : Fin 1) => (1 : ℝ)) l)
        (((fun (_ : Fin 2) => ((0 : ℝ), (0 : ℝ), (10 : ℝ))) i).2.2)) ∧
    (∀ (l : Fin 1) (i j : Fin 2),
      build_spectrum_matrix (fun _ _ => 1) (fun _ => (0, 0, 10)) (fun _ => 25)
          16 6 10 (fun _ => 1) l i j
        = build_spectrum_matrix (fun _ _ => 1) (fun _ => (0, 0, 10)) (fun _ => 25)
            16 6 10 (fun _ => 1) l j i) :=
  ⟨fun _ _ => zero_le_one,
    (build_spectrum_matrix_spec (fun _ _ => 1) (fun _ => (0, 0, 10)) (fun _ => 25)
      16 6 10 (fun _ => 1) (fun _ _ => zero_le_one)).1⟩

/-- C2 counterexample.  In the JAX backend the phase factor multiplying
`H[l, j, m]` is `exp(i * phi[j, m, l])` — it depends on the output point
`j` — so there is no single shared phase array `phase[m, l]` for which
the JAX B-coefficients satisfy the specified synthesis formula.
Concretely, with `n = 2`, `N = 1`, `M = 2`, `H[0, j, m] = (m = 0 ? 1 : 0)`
and `phi[0, *, *] = 0`, `phi[1, *, *] = pi`, the two B rows are `1` and
`-1`, while the shared-phase formula forces them to be equal. -/
theorem jax_shared_phase_counterexample :
    ¬ ∃ ψ : Fin 2 → Fin 1 → ℝ, ∀ (j : Fin 2) (lp : Fin 2),
        B_jax (n := 2) (N := 1) (M := 2) (fun _ _ m => if m = 0 then 1 else 0)
            (fun j _ _ => if j = 0 then 0 else Real.pi) j lp
          = B_specFormula (n := 2) (N := 1) (M := 2)
              (fun _ _ m => if m = 0 then 1 else 0) ψ j lp := by
  rintro ⟨ψ, hψ⟩
  have h0 := hψ 0 ⟨0, by omega⟩
  have h1 := hψ 1 ⟨0, by omega⟩
  rw [B_specFormula_eq_ite] at h0 h1
  rw [B_jax] at h0 h1
  simp only [Fin.isValue, Fin.sum_univ_two, show ((0 : Fin 2) : ℕ) = 0 from rfl,
    show ((1 : Fin 2) : ℕ) = 1 from rfl, show ((⟨0, by omega⟩ : Fin 2) : ℕ) = 0 from rfl] at h0 h1
  norm_num at h0 h1
  rw [show Complex.I * ((Real.pi : ℝ) : ℂ) = ((Real.pi : ℝ) : ℂ) * Complex.I from mul_comm _ _,
    Complex.exp_pi_mul_I] at h1
  rw [← h1] at h0
  norm_num at h0

/-- C2 (amended).  The looped NumPy backend satisfies the synthesis
formula of the specification exactly — `B_j[l] = sum over m <= j of
H[l,j,m] * exp(i phase[m,l])` with the phase array `phase[m,l]` shared by
every output point, zero-padding to `M`, `G_j = ifft(B_j) * M`, and
`samples[j,p] = sqrt(2 dw) * Re(G_j[p] * exp(i p pi / M))`.  The JAX
backend satisfies the same formula except that the phase entering the
`(j, m, l)` term is `phi[j, m, l]` from its `(n, n, N)` phase array:
each output point has its own phase slice, not a shared one. -/
theorem synthesis_formula_amended {n N M : ℕ} (dw : ℝ)
    (H : Fin N → Fin n → Fin n → ℂ) (phi : Fin n → Fin N → ℝ)
    (phi3 : Fin n → Fin n → Fin N → ℝ) :
    (∀ (j : Fin n) (lp : Fin M),
      B_np (M := M) H phi j lp = B_specFormula (M := M) H phi j lp) ∧
    (∀ (j : Fin n) (p : Fin M),
      wind_samples_np dw H phi j p = wind_samples_specFormula dw H phi j p) ∧
    (∀ (j : Fin n) (lp : Fin M),
      B_jax (M := M) H phi3 j lp
        = B_specFormula (M := M) H (fun m l => phi3 j m l) j lp) := by
  have hB : ∀ (j : Fin n) (lp : Fin M),
      B_np (M := M) H phi j lp = B_specFormula (M := M) H phi j lp := by
    intro j lp
    rw [B_specFormula_eq_ite, B_np]
  refine ⟨hB, ?_, ?_⟩
  · intro j p
    have hfun : B_np (M := M) H phi j = B_specFormula (M := M) H phi j :=
      funext (hB j)
    rw [wind_samples_np, wind_samples_specFormula, G_np, hfun]
  · intro j lp
    rw [B_specFormula_eq_ite, B_jax]
    split
    · apply Finset.sum_congr rfl
      intro m _
      by_cases hm : (m : ℕ) ≤ (j : ℕ)
      · simp [hm]
      · simp [hm]
    · rfl

/-- C8.  The factorization step regularizes each frequency slice by
adding exactly `1e-12` times the identity, hands each regularized slice
independently to the external Cholesky routine, and a failure on any
slice makes the whole `simulate` call fail — there is no code path that
retries with a different regularization or masks the failure, and on
success slice `i`'s factor is the Cholesky factor of slice `i`'s
regularized matrix alone. -/
theorem factorize_slices_spec {Nf k : ℕ}
    (chol : (Fin k → Fin k → ℝ) → Option (Fin k → Fin k → ℝ))
    (S : Fin Nf → Fin k → Fin k → ℝ) :
    (∀ (A : Fin k → Fin k → ℝ) (i j : Fin k),
      regularize A i j = A i j + (if i = j then 1e-12 else 0)) ∧
    (factorize_slices chol S = none ↔ ∃ i, chol (regularize (S i)) = none) ∧
    (∀ Hm, factorize_slices chol S = some Hm →
      ∀ i, chol (regularize (S i)) = some (Hm i)) ∧
    (∀ (n : ℕ) (cholAll : (k2 : ℕ) → (Fin k2 → Fin k2 → ℝ) → Option (Fin k2 → Fin k2 → ℝ))
        (Sfun : ℝ → ℝ → ℝ) (stream : ℕ → ℝ) (offset : ℕ)
        (pos : Fin n → ℝ × ℝ × ℝ) (U : Fin n → ℝ) (C_x C_y C_z : ℝ)
        (N M : ℕ) (dw : ℝ),
      simulate_direct cholAll Sfun stream offset pos U C_x C_y C_z N M dw = none ↔
        factorize_slices (cholAll n)
          (build_spectrum_matrix Sfun pos U C_x C_y C_z
            (fun l : Fin N => freqAt dw (l : ℕ))) = none) := by
  refine ⟨fun A i j => rfl, ?_, ?_, ?_⟩
  · rw [factorize_slices]
    split
    · rename_i h
      simp only [reduceCtorEq, false_iff, not_exists]
      intro i
      exact Option.isSome_iff_ne_none.mp (h i)
    · rename_i h
      push_neg at h
      obtain ⟨i, hi⟩ := h
      exact iff_of_true rfl ⟨i, Option.not_isSome_iff_eq_none.mp hi⟩
  · intro Hm hHm i
    rw [factorize_slices] at hHm
    split at hHm
    · rename_i h
      have := congrFun (Option.some.inj hHm) i
      rw [← this, Option.some_get]
    · exact absurd hHm (by simp)
  · intro n cholAll Sfun stream offset pos U C_x C_y C_z N M dw
    rw [simulate_direct]
    cases heq : factorize_slices (cholAll n)
        (build_spectrum_matrix Sfun pos U C_x C_y C_z
          (fun l : Fin N => freqAt dw (l : ℕ))) with
    | none => simp
    | some H => simp

/-- Witness for C8: a one-slice, one-point system with an oracle that
always fails, and one with an oracle that always succeeds. -/
theorem factorize_slices_spec_witness :
    factorize_slices (fun _ => (none : Option (Fin 1 → Fin 1 → ℝ)))
      (fun (_ : Fin 1) (_ _ : Fin 1) => (0 : ℝ)) = none :=
  (factorize_slices_spec (fun _ => none) (fun _ _ _ => 0)).2.1.mpr ⟨0, rfl⟩

/-- C9 counterexample.  The component tag `"x"` is neither `"u"` nor
`"w"`, yet the JAX backend raises nothing for it: the dispatch
`if direction == "u" else` silently selects the vertical spectrum, and
the simulation proceeds exactly as for `"w"`. -/
theorem invalid_component_uses_w_spectrum :
    select_spectrum_func ("x") = calculate_power_spectrum_w ∧
    select_spectrum_func ("x") = select_spectrum_func ("w") ∧
    "x" ≠ "u" ∧ "x" ≠ "w" := by
  refine ⟨?_, ?_, by decide, by decide⟩
  · rw [select_spectrum_func, if_neg (by decide)]
  · rw [select_spectrum_func, select_spectrum_func, if_neg (by decide), if_neg (by decide)]

/-- C9 (amended).  The tag `"u"` selects the along-wind spectrum; every
other tag — `"w"` but also any invalid tag — selects the vertical
spectrum; no tag raises an error. -/
theorem select_spectrum_func_amended (direction : String) (hd : direction ≠ "u") :
    select_spectrum_func ("u") = calculate_power_spectrum_u ∧
    select_spectrum_func direction = calculate_power_spectrum_w := by
  constructor
  · rw [select_spectrum_func, if_pos rfl]
  · rw [select_spectrum_func, if_neg hd]

/-- Witness for C9 (amended) at the invalid tag `"x"`. -/
theorem select_spectrum_func_amended_witness :
    ("x" : String) ≠ "u" ∧
    select_spectrum_func ("u") = calculate_power_spectrum_u ∧
    select_spectrum_func ("x") = calculate_power_spectrum_w :=
  ⟨by decide, (select_spectrum_func_amended ("x") (by decide)).1,
    (select_spectrum_func_amended ("x") (by decide)).2⟩

/-- C10.  For any `n ≥ 1` and `M = 2N`, whenever a `simulate` call
returns (i.e. does not raise in the factorization), its samples matrix
has exactly `n` rows of `M = 2N` entries each and its frequency array
has exactly `N` entries — on the direct execution path and on the
batched execution path alike. -/
theorem simulate_output_shape {n : ℕ}
    (chol : (k : ℕ) → (Fin k → Fin k → ℝ) → Option (Fin k → Fin k → ℝ))
    (Sfun : ℝ → ℝ → ℝ) (stream : ℕ → ℝ) (offset : ℕ)
    (pos : Fin n → ℝ × ℝ × ℝ) (U : Fin n → ℝ) (C_x C_y C_z : ℝ)
    (N M : ℕ) (dw : ℝ) (b : ℕ)
    (hn : 1 ≤ n) (hM : M = 2 * N) :
    (∀ out, output_as_lists N dw
        (simulate_direct chol Sfun stream offset pos U C_x C_y C_z N M dw) = some out →
      out.1.length = n ∧ (∀ row ∈ out.1, row.length = 2 * N) ∧ out.2.length = N) ∧
    (∀ out, output_as_lists N dw
        (simulate_batched chol Sfun stream pos U C_x C_y C_z N M dw b) = some out →
      out.1.length = n ∧ (∀ row ∈ out.1, row.length = 2 * N) ∧ out.2.length = N) := by
  subst hM
  exact ⟨fun out hout => output_as_lists_shape _ dw _ out hout,
    fun out hout => output_as_lists_shape _ dw _ out hout⟩

/-- Witness for C10: a one-point, one-frequency system with an oracle
Cholesky that always succeeds; the direct path returns an output and the
theorem yields its shape. -/
theorem simulate_output_shape_witness :
    (1 ≤ 1 ∧ 2 = 2 * 1) ∧
    (∀ out, output_as_lists 1 (5 : ℝ)
        (simulate_direct (fun _ _ => some (fun _ _ => 0)) (fun _ _ => 1) (fun _ => 0) 0
          (fun _ : Fin 1 => ((0 : ℝ), (0 : ℝ), (10 : ℝ))) (fun _ => 25) 16 6 10 1 2 5)
          = some out →
      out.1.length = 1 ∧ (∀ row ∈ out.1, row.length = 2 * 1) ∧ out.2.length = 1) :=
  ⟨⟨le_refl 1, rfl⟩,
    (simulate_output_shape (fun _ _ => some (fun _ _ => 0)) (fun _ _ => 1) (fun _ => 0) 0
      (fun _ : Fin 1 => ((0 : ℝ), (0 : ℝ), (10 : ℝ))) (fun _ => 25) 16 6 10 1 2 5 1
      (le_refl 1) rfl).1⟩

/-- C1.  Batched and unbatched execution differ: with two coincident
points, `point_batch_size = 1`, `N = 1`, `M = 2`, a constant unit
spectrum, a constant-zero random stream and a Cholesky oracle returning
the all-ones lower-triangular factor, the unbatched pipeline's second
output row at time index `0` is `sqrt(10) * 2` — its B-coefficient sums
the factor entries `H[l, 1, 0]` and `H[l, 1, 1]` over the full two-point
factor — while the batched pipeline's second row is computed from a
single-point sub-problem containing only the second point
(`build_spectrum_matrix` receives `batch_positions` only), giving
`sqrt(10) * 1`.  The two execution paths therefore return different
outputs on the same inputs and the same random stream. -/
theorem point_batching_changes_output :
    simulate_direct cholOnes (fun _ _ => 1) (fun _ => 0) 0
        (fun _ : Fin 2 => ((0 : ℝ), (0 : ℝ), (10 : ℝ))) (fun _ => 25) 16 6 10 1 2 5
      ≠ simulate_batched cholOnes (fun _ _ => 1) (fun _ => 0)
        (fun _ : Fin 2 => ((0 : ℝ), (0 : ℝ), (10 : ℝ))) (fun _ => 25) 16 6 10 1 2 5 1 := by
  intro h
  have hsome : ∀ k : Fin (batchCount 2 1),
      (batch_direct cholOnes (fun _ _ => 1) (fun _ => 0)
        (fun _ : Fin 2 => ((0 : ℝ), (0 : ℝ), (10 : ℝ))) (fun _ => 25)
        16 6 10 1 2 5 1 (k : ℕ)).isSome := by
    intro k
    rw [batch_direct, simulate_direct_cholOnes]
    rfl
  rw [simulate_direct_cholOnes, simulate_batched,
    dif_pos (by norm_num : (0 : ℕ) < 1), dif_pos hsome] at h
  have hfun := Option.some.inj h
  have hval := congrFun (congrFun hfun 1) 0
  have hb1 : batch_direct cholOnes (fun _ _ => 1) (fun _ => 0)
      (fun _ : Fin 2 => ((0 : ℝ), (0 : ℝ), (10 : ℝ))) (fun _ => 25)
      16 6 10 1 2 5 1 1
      = some (fun j p =>
          wind_samples_np (M := 2) 5
            (fun (_ : Fin 1) (j2 m : Fin (batchSize 2 1 1)) =>
              (((if (m : ℕ) ≤ (j2 : ℕ) then (1 : ℝ) else 0) : ℝ) : ℂ))
            (drawPhi (fun _ => 0) (1 * 1 * 1) (batchSize 2 1 1) 1) j p) := by
    rw [batch_direct, simulate_direct_cholOnes]
  have hx : (batch_direct cholOnes (fun _ _ => 1) (fun _ => 0)
      (fun _ : Fin 2 => ((0 : ℝ), (0 : ℝ), (10 : ℝ))) (fun _ => 25)
      16 6 10 1 2 5 1 1).isSome := hsome ⟨1, by decide⟩
  have hval2 :
      wind_samples_np (n := 2) (N := 1) (M := 2) 5
        (fun (_ : Fin 1) (j2 m : Fin 2) =>
          (((if (m : ℕ) ≤ (j2 : ℕ) then (1 : ℝ) else 0) : ℝ) : ℂ))
        (fun _ _ => 0) 1 0
      = ((batch_direct cholOnes (fun _ _ => 1) (fun _ => 0)
          (fun _ : Fin 2 => ((0 : ℝ), (0 : ℝ), (10 : ℝ))) (fun _ => 25)
          16 6 10 1 2 5 1 1).get hx) ⟨0, by decide⟩ 0 := hval
  rw [Option.get_of_mem hx (Option.mem_def.mpr hb1)] at hval2
  have hkey : Real.sqrt 10 * 2 = Real.sqrt 10 * 1 := by
    rw [← wind_samples_np_ones_two, ← wind_samples_np_ones_one]
    exact hval2
  have h10 : Real.sqrt 10 ≠ 0 := ne_of_gt (Real.sqrt_pos.mpr (by norm_num))
  have h21 := mul_left_cancel₀ h10 hkey
  norm_num at h21

end WindSim
